import Mathlib

/-!
Verification of the radiance graph-execution / chain-management engine
against its specification.

The development shallowly embeds the relevant source files:

* `OutputWindow.cpp` — the output window's display-binding poll
  (`reload`), screen-name configuration (`setScreenName`) and the
  attach-to-screen behaviour (`putOnScreen`).
* `QQuickPreviewAdapter.cpp` — preview-chain registration
  (`setModel`, `setPreviewSize`, destructor), texture lookup
  (`previewTexture`) and the snapshot render hook
  (`onBeforeSynchronizing`).
* The TypeScript graph prototype's `Graph.modelChanged` edge-validation
  loop.

The Model and Chain classes are not part of the provided sources (only
their callers are); where a claim depends on them they are modelled from
the specification, and each such definition's doc comment says so.
-/

namespace RadianceOW

/-- A physical display as enumerated by `QGuiApplication::screens()`:
identity (pointer identity in the source, a numeric id here), reported
name and reported geometry. -/
structure Screen where
  sid : Nat
  name : String
  geom : Int × Int × Int × Int
deriving DecidableEq, Repr

/-- Signals emitted by `OutputWindow`. -/
inductive OWSignal where
  | foundChanged (b : Bool)
  | screenNameChanged (n : String)
deriving DecidableEq, Repr

/-- The observable state of an `OutputWindow`: `m_screenName`, `m_found`,
the screen the window is attached to (`screen()`), and its geometry. -/
structure WindowState where
  screenName : String
  found : Bool
  screen : Option Nat
  geometry : Int × Int × Int × Int
deriving DecidableEq, Repr

/-- One iteration of the `foreach` loop in `OutputWindow::reload`
(OutputWindow.cpp lines 53-60): on a name match, `setScreen(testScreen)`
is called when the window is not already on that screen, and the running
`found` flag is set.  `setScreen` emits `QWindow::screenChanged`, whose
connected `putOnScreen` slot sets the geometry to the new screen's
geometry; the also-connected re-entrant `reload` recomputes the same
state from the same screen list and has no further net effect, so the
attach is modelled as one combined update. -/
def reloadStep (acc : WindowState × Bool) (ts : Screen) : WindowState × Bool :=
  if ts.name = acc.1.screenName then
    (if acc.1.screen = some ts.sid then acc.1
     else { acc.1 with screen := some ts.sid, geometry := ts.geom }, true)
  else acc

/-- `OutputWindow::reload` (OutputWindow.cpp lines 48-66): scan the
currently available screens, attach to any screen whose name matches
`m_screenName`, then update `m_found` and emit `foundChanged` exactly
when the recomputed value differs from the stored one. -/
def reload (s : WindowState) (screens : List Screen) : WindowState × List OWSignal :=
  let r := List.foldl reloadStep (s, false) screens
  if r.2 = r.1.found then (r.1, [])
  else ({ r.1 with found := r.2 }, [OWSignal.foundChanged r.2])

/-- `OutputWindow::setScreenName` (OutputWindow.cpp lines 40-46): on a
changed name, store it, emit `screenNameChanged`, and immediately poll
via `reload`; on an unchanged name, do nothing. -/
def setScreenName (s : WindowState) (n : String) (screens : List Screen) :
    WindowState × List OWSignal :=
  if n = s.screenName then (s, [])
  else
    let s1 : WindowState := { s with screenName := n }
    let r := reload s1 screens
    (r.1, OWSignal.screenNameChanged n :: r.2)

/-- The repeating 1000 ms `m_reloader` timer (OutputWindow.cpp lines
20-22): each tick invokes `reload` on the then-current screen list. -/
def runPolls (s : WindowState) (polls : List (List Screen)) : WindowState :=
  polls.foldl (fun st p => (reload st p).1) s

theorem reloadStep_screenName (acc : WindowState × Bool) (ts : Screen) :
    (reloadStep acc ts).1.screenName = acc.1.screenName := by
  unfold reloadStep
  by_cases h : ts.name = acc.1.screenName <;>
    by_cases h2 : acc.1.screen = some ts.sid <;> simp [h, h2]

theorem reloadStep_found (acc : WindowState × Bool) (ts : Screen) :
    (reloadStep acc ts).1.found = acc.1.found := by
  unfold reloadStep
  by_cases h : ts.name = acc.1.screenName <;>
    by_cases h2 : acc.1.screen = some ts.sid <;> simp [h, h2]

theorem reload_fold_spec (l : List Screen) (s : WindowState) (b : Bool) :
    (List.foldl reloadStep (s, b) l).1.screenName = s.screenName
  ∧ (List.foldl reloadStep (s, b) l).1.found = s.found
  ∧ (List.foldl reloadStep (s, b) l).2
      = (b || l.any (fun t => t.name = s.screenName)) := by
  induction l generalizing s b with
  | nil => simp
  | cons t l ih =>
    simp only [List.foldl_cons, List.any_cons]
    have hstep : (reloadStep (s, b) t).1.screenName = s.screenName :=
      reloadStep_screenName (s, b) t
    have hfound : (reloadStep (s, b) t).1.found = s.found :=
      reloadStep_found (s, b) t
    obtain ⟨ih1, ih2, ih3⟩ := ih (reloadStep (s, b) t).1 (reloadStep (s, b) t).2
    refine ⟨by rw [ih1, hstep], by rw [ih2, hfound], ?_⟩
    rw [ih3, hstep]
    by_cases h : t.name = s.screenName <;>
      by_cases h2 : s.screen = some t.sid <;>
      simp [reloadStep, h, h2, Bool.or_assoc]

theorem reload_eq (s : WindowState) (screens : List Screen) :
    reload s screens =
      if screens.any (fun t => t.name = s.screenName) = s.found
      then ((List.foldl reloadStep (s, false) screens).1, [])
      else ({ (List.foldl reloadStep (s, false) screens).1
                with found := screens.any (fun t => t.name = s.screenName) },
            [OWSignal.foundChanged (screens.any (fun t => t.name = s.screenName))]) := by
  obtain ⟨h1, h2, h3⟩ := reload_fold_spec screens s false
  simp only [reload]
  rw [h3, h2]
  simp

theorem reload_screenName (s : WindowState) (screens : List Screen) :
    (reload s screens).1.screenName = s.screenName := by
  rw [reload_eq]
  obtain ⟨h1, _, _⟩ := reload_fold_spec screens s false
  by_cases h : screens.any (fun t => t.name = s.screenName) = s.found <;> simp [h, h1]

theorem reload_found_eq (s : WindowState) (screens : List Screen) :
    (reload s screens).1.found = screens.any (fun t => t.name = s.screenName) := by
  rw [reload_eq]
  obtain ⟨_, h2, _⟩ := reload_fold_spec screens s false
  by_cases h : screens.any (fun t => t.name = s.screenName) = s.found <;> simp [h, h2]

/-- C2: after every poll, `found()` holds iff some currently available
screen's name equals the configured screen name; `foundChanged` is
emitted exactly on polls where this value differs from its previous
value; and while no matching display is present, `found` stays false
across polls. -/
theorem outputWindow_poll_found_spec (s : WindowState) (screens : List Screen)
    (polls : List (List Screen)) :
    ((reload s screens).1.found = true ↔ ∃ t ∈ screens, t.name = s.screenName)
  ∧ ((reload s screens).2 =
      if (reload s screens).1.found = s.found then []
      else [OWSignal.foundChanged (reload s screens).1.found])
  ∧ (s.found = false →
      (∀ p ∈ polls, ∀ t ∈ p, t.name ≠ s.screenName) →
      (runPolls s polls).found = false) := by
  refine ⟨?_, ?_, ?_⟩
  · rw [reload_found_eq]
    simp [List.any_eq_true]
  · obtain ⟨_, h2, _⟩ := reload_fold_spec screens s false
    by_cases h : screens.any (fun t => t.name = s.screenName) = s.found <;>
      simp [reload_eq, h, h2]
  · intro hf hnone
    induction polls generalizing s with
    | nil => simpa [runPolls] using hf
    | cons p ps ih =>
      simp only [runPolls, List.foldl_cons] at *
      have hp : ∀ t ∈ p, t.name ≠ s.screenName := hnone p (by simp)
      have hfound : (reload s p).1.found = false := by
        rw [reload_found_eq]
        simp only [List.any_eq_false, decide_eq_true_eq]
        intro t ht
        exact hp t ht
      have hname : (reload s p).1.screenName = s.screenName :=
        reload_screenName s p
      exact ih (reload s p).1 hfound
        (fun q hq t ht => by rw [hname]; exact hnone q (by simp [hq]) t ht)

/-- C8: when the poll's screen list contains exactly one screen whose
name matches the configured name, and the window is not already attached
to it, `reload` attaches the window to that screen and sets the window
geometry to that screen's reported geometry. -/
theorem outputWindow_attach_spec (s : WindowState) (pre post : List Screen)
    (m : Screen)
    (hm : m.name = s.screenName)
    (hpre : ∀ t ∈ pre, t.name ≠ s.screenName)
    (hpost : ∀ t ∈ post, t.name ≠ s.screenName)
    (hs : s.screen ≠ some m.sid) :
    (reload s (pre ++ m :: post)).1.screen = some m.sid
  ∧ (reload s (pre ++ m :: post)).1.geometry = m.geom := by
  have hskip : ∀ (l : List Screen) (st : WindowState) (b : Bool),
      st.screenName = s.screenName → (∀ t ∈ l, t.name ≠ s.screenName) →
      List.foldl reloadStep (st, b) l = (st, b) := by
    intro l
    induction l with
    | nil => intro st b _ _; rfl
    | cons t l ih =>
      intro st b hn hl
      have ht : ¬ t.name = st.screenName := by
        rw [hn]; exact hl t (by simp)
      simp only [List.foldl_cons, reloadStep, if_neg ht]
      exact ih st b hn (fun u hu => hl u (by simp [hu]))
  have hmain : List.foldl reloadStep (s, false) (pre ++ m :: post)
      = ({ s with screen := some m.sid, geometry := m.geom }, true) := by
    rw [List.foldl_append, hskip pre s false rfl hpre]
    simp only [List.foldl_cons, reloadStep, hm, if_pos rfl, if_neg hs]
    exact hskip post { s with screen := some m.sid, geometry := m.geom } true rfl hpost
  rw [reload_eq, hmain]
  by_cases h : ((pre ++ m :: post).any fun t => t.name = s.screenName) = s.found
  · rw [if_pos h]
    simp
  · rw [if_neg h]
    simp

/-- A concrete window state for witnesses: freshly constructed
(`m_screenName = ""`, `m_found = false`) and then configured. -/
def sampleWindow : WindowState :=
  { screenName := "HDMI-1", found := false, screen := some 7, geometry := (0, 0, 0, 0) }

/-- A concrete screen for witnesses. -/
def sampleScreen : Screen :=
  { sid := 3, name := "HDMI-1", geom := (0, 0, 1920, 1080) }

/-- Witness for C8 at a concrete input: one matching screen, window
attached elsewhere. -/
theorem outputWindow_attach_spec_witness :
    (reload sampleWindow ([] ++ sampleScreen :: [])).1.screen = some sampleScreen.sid
  ∧ (reload sampleWindow ([] ++ sampleScreen :: [])).1.geometry = sampleScreen.geom :=
  outputWindow_attach_spec sampleWindow [] [] sampleScreen rfl
    (by intro t ht; simp at ht) (by intro t ht; simp at ht) (by decide)

/-- C10: `setScreenName` with the currently configured name changes no
state, emits no signal and triggers no poll; with a different name it
stores the name, emits `screenNameChanged` exactly once, and the
resulting state is exactly that of the immediately triggered poll. -/
theorem setScreenName_spec (s : WindowState) (n : String) (screens : List Screen) :
    (n = s.screenName → setScreenName s n screens = (s, []))
  ∧ (n ≠ s.screenName →
      setScreenName s n screens =
        ((reload { s with screenName := n } screens).1,
          OWSignal.screenNameChanged n :: (reload { s with screenName := n } screens).2)
      ∧ List.count (OWSignal.screenNameChanged n) (setScreenName s n screens).2 = 1) := by
  constructor
  · intro h
    simp [setScreenName, h]
  · intro h
    constructor
    · simp [setScreenName, h]
    · have hnosn : ∀ (st : WindowState) (sc : List Screen),
          List.count (OWSignal.screenNameChanged n) (reload st sc).2 = 0 := by
        intro st sc
        rw [reload_eq]
        by_cases hc : sc.any (fun t => t.name = st.screenName) = st.found <;>
          simp [hc]
      simp [setScreenName, h, List.count_cons, hnosn]

end RadianceOW

namespace RadianceGraphUI

/-- An edge of the graph prototype's model: `{fromVertex, toVertex,
toInput}` (part_000, `interface Edge`). -/
structure TEdge where
  fromVertex : Nat
  toVertex : Nat
  toInput : Nat
deriving DecidableEq, Repr

/-- The failures `Graph.modelChanged` can throw while scanning
`this.model.edges` (part_000 lines 450-463): accessing the upstream
array of a vertex that does not exist, an edge to a nonexistant input,
and a second upstream vertex on an occupied input. -/
inductive EdgeError where
  | missingVertex (v : Nat)
  | nonexistentInput (v i : Nat)
  | multipleUpstream (v i : Nat)
deriving DecidableEq, Repr

/-- `upstreamNodeVertices`: per vertex, the upstream vertex recorded on
each input, or `none` (the prototype's `null`). -/
abbrev Upstream := List (List (Option Nat))

/-- The initialisation loop (part_000 lines 441-446): one all-`null`
slot row per vertex, sized by the vertex's `nInputs`. -/
def initUpstream (arities : List Nat) : Upstream :=
  arities.map (fun n => List.replicate n none)

/-- The body of `for (let edge of this.model.edges)` (part_000 lines
450-463): indexing a missing row throws; `edge.toInput >= row.length`
throws the nonexistant-input error; a non-`null` slot throws the
multiple-upstream error; otherwise the edge's `fromVertex` is recorded
in the slot. -/
def processEdge (u : Upstream) (e : TEdge) : Except EdgeError Upstream :=
  if u.length ≤ e.toVertex then
    Except.error (EdgeError.missingVertex e.toVertex)
  else if (u.getD e.toVertex []).length ≤ e.toInput then
    Except.error (EdgeError.nonexistentInput e.toVertex e.toInput)
  else if ((u.getD e.toVertex []).getD e.toInput none).isSome then
    Except.error (EdgeError.multipleUpstream e.toVertex e.toInput)
  else
    Except.ok (u.set e.toVertex
      ((u.getD e.toVertex []).set e.toInput (some e.fromVertex)))

/-- Run the edge loop over a list of edges; a `throw` aborts it and the
pair carries the error together with the `upstreamNodeVertices` state at
the moment of the throw. -/
def processEdges (u : Upstream) : List TEdge → Option EdgeError × Upstream
  | [] => (none, u)
  | e :: es =>
    match processEdge u e with
    | Except.error err => (some err, u)
    | Except.ok u2 => processEdges u2 es

/-- The upstream slot of input `i` of vertex `v`: `some none` means the
slot exists but is unconnected, `some (some w)` means `w` is recorded as
the upstream vertex, `none` means no such slot. -/
def getSlot (u : Upstream) (v i : Nat) : Option (Option Nat) :=
  (u.getD v [])[i]?

theorem getD_set_ne (l : List (List (Option Nat))) (i j : Nat)
    (a : List (Option Nat)) (h : i ≠ j) :
    (l.set i a).getD j [] = l.getD j [] := by
  simp [List.getD_eq_getElem?_getD, List.getElem?_set_ne h]

theorem getD_set_self (l : List (List (Option Nat))) (i : Nat)
    (a : List (Option Nat)) (h : i < l.length) :
    (l.set i a).getD i [] = a := by
  simp [List.getD_eq_getElem?_getD, List.getElem?_set_self h]

theorem processEdge_ok_inv (u : Upstream) (e : TEdge) (u2 : Upstream)
    (h : processEdge u e = Except.ok u2) :
    e.toVertex < u.length
  ∧ e.toInput < (u.getD e.toVertex []).length
  ∧ (u.getD e.toVertex []).getD e.toInput none = none
  ∧ u2 = u.set e.toVertex
      ((u.getD e.toVertex []).set e.toInput (some e.fromVertex)) := by
  unfold processEdge at h
  by_cases h1 : u.length ≤ e.toVertex
  · rw [if_pos h1] at h
    exact absurd h (by simp)
  · rw [if_neg h1] at h
    by_cases h2 : (u.getD e.toVertex []).length ≤ e.toInput
    · rw [if_pos h2] at h
      exact absurd h (by simp)
    · rw [if_neg h2] at h
      by_cases h3 : ((u.getD e.toVertex []).getD e.toInput none).isSome
      · rw [if_pos h3] at h
        exact absurd h (by simp)
      · rw [if_neg h3] at h
        refine ⟨by omega, by omega, ?_, by simpa using h.symm⟩
        simpa [Option.not_isSome_iff_eq_none] using h3

theorem processEdge_preserve (u : Upstream) (e : TEdge) (u2 : Upstream)
    (v i w : Nat)
    (hok : processEdge u e = Except.ok u2)
    (h : getSlot u v i = some (some w)) :
    getSlot u2 v i = some (some w) := by
  obtain ⟨hv, hi, hempty, rfl⟩ := processEdge_ok_inv u e u2 hok
  unfold getSlot at h ⊢
  by_cases hvv : e.toVertex = v
  · subst hvv
    rw [getD_set_self _ _ _ hv]
    by_cases hii : e.toInput = i
    · subst hii
      rw [List.getD_eq_getElem?_getD, h] at hempty
      simp at hempty
    · rw [List.getElem?_set_ne hii]
      exact h
  · rw [getD_set_ne _ _ _ _ hvv]
    exact h

theorem processEdges_preserve (es : List TEdge) (u : Upstream) (v i w : Nat)
    (h : getSlot u v i = some (some w)) :
    getSlot (processEdges u es).2 v i = some (some w) := by
  induction es generalizing u with
  | nil => exact h
  | cons e es ih =>
    simp only [processEdges]
    cases hp : processEdge u e with
    | error err => exact h
    | ok u2 => exact ih u2 (processEdge_preserve u e u2 v i w hp h)

theorem processEdges_append_ok (l1 l2 : List TEdge) (u u1 : Upstream)
    (h : processEdges u l1 = (none, u1)) :
    processEdges u (l1 ++ l2) = processEdges u1 l2 := by
  induction l1 generalizing u with
  | nil =>
    simp only [processEdges] at h
    obtain ⟨rfl⟩ : u = u1 := by simpa using congrArg Prod.snd h
    rfl
  | cons e l1 ih =>
    simp only [processEdges, List.cons_append] at h ⊢
    cases hp : processEdge u e with
    | error err =>
      rw [hp] at h
      simp at h
    | ok u2 =>
      rw [hp] at h
      exact ih u2 h

theorem processEdges_ok_prefix (l1 l2 : List TEdge) (u : Upstream)
    (h : (processEdges u (l1 ++ l2)).1 = none) :
    (processEdges u l1).1 = none := by
  induction l1 generalizing u with
  | nil => rfl
  | cons e l1 ih =>
    simp only [processEdges, List.cons_append] at h ⊢
    cases hp : processEdge u e with
    | error err =>
      rw [hp] at h
      simp at h
    | ok u2 =>
      rw [hp] at h
      exact ih u2 h

theorem processEdges_records (pre : List TEdge) (u0 u1 : Upstream) (e1 : TEdge)
    (hmem : e1 ∈ pre)
    (h : processEdges u0 pre = (none, u1)) :
    getSlot u1 e1.toVertex e1.toInput = some (some e1.fromVertex) := by
  obtain ⟨p, q, rfl⟩ := List.append_of_mem hmem
  have hp1 : (processEdges u0 p).1 = none :=
    processEdges_ok_prefix p (e1 :: q) u0 (by rw [h])
  have hp : processEdges u0 p = (none, (processEdges u0 p).2) := by
    rw [← hp1]
  have hrest : processEdges (processEdges u0 p).2 (e1 :: q) = (none, u1) := by
    rw [← processEdges_append_ok p (e1 :: q) u0 (processEdges u0 p).2 hp]
    exact h
  simp only [processEdges] at hrest
  cases hok : processEdge (processEdges u0 p).2 e1 with
  | error err =>
    rw [hok] at hrest
    simp at hrest
  | ok u2 =>
    rw [hok] at hrest
    obtain ⟨hv, hi, hempty, hu2⟩ :=
      processEdge_ok_inv (processEdges u0 p).2 e1 u2 hok
    have hslot : getSlot u2 e1.toVertex e1.toInput
        = some (some e1.fromVertex) := by
      rw [hu2]
      unfold getSlot
      rw [getD_set_self _ _ _ hv]
      rw [List.getElem?_set_self (by simpa using hi)]
    have hrest2 : processEdges u2 q = (none, u1) := hrest
    have := processEdges_preserve q u2 e1.toVertex e1.toInput e1.fromVertex hslot
    rw [congrArg Prod.snd hrest2] at this
    exact this

theorem processEdge_occupied (u : Upstream) (e : TEdge) (w : Nat)
    (h : getSlot u e.toVertex e.toInput = some (some w)) :
    processEdge u e
      = Except.error (EdgeError.multipleUpstream e.toVertex e.toInput) := by
  unfold getSlot at h
  have hlen : e.toInput < (u.getD e.toVertex []).length := by
    by_contra hc
    rw [List.getElem?_eq_none (by omega)] at h
    exact absurd h (by simp)
  have hv : e.toVertex < u.length := by
    by_contra hc
    have : u.getD e.toVertex [] = [] := by
      rw [List.getD_eq_getElem?_getD, List.getElem?_eq_none (by omega)]
      rfl
    rw [this] at hlen
    simp at hlen
  unfold processEdge
  rw [if_neg (by omega), if_neg (by omega), if_pos]
  rw [List.getD_eq_getElem?_getD, h]
  rfl

/-- C4: when the edge loop has processed a prefix without error and that
prefix contains an edge `e1` into a slot, a later edge `e2` into the
same `(toVertex, toInput)` slot makes the loop throw the
multiple-upstream error upon reaching `e2`, with `e1.fromVertex` still
the sole upstream vertex recorded for that slot. -/
theorem secondEdgeSameSlot_fails (arities : List Nat) (pre rest : List TEdge)
    (e1 e2 : TEdge) (u1 : Upstream)
    (hmem : e1 ∈ pre)
    (hv : e2.toVertex = e1.toVertex) (hi : e2.toInput = e1.toInput)
    (hpre : processEdges (initUpstream arities) pre = (none, u1)) :
    processEdges (initUpstream arities) (pre ++ e2 :: rest)
      = (some (EdgeError.multipleUpstream e2.toVertex e2.toInput), u1)
  ∧ getSlot u1 e2.toVertex e2.toInput = some (some e1.fromVertex) := by
  have hrec := processEdges_records pre (initUpstream arities) u1 e1 hmem hpre
  have hrec2 : getSlot u1 e2.toVertex e2.toInput = some (some e1.fromVertex) := by
    rw [hv, hi]
    exact hrec
  refine ⟨?_, hrec2⟩
  rw [processEdges_append_ok pre (e2 :: rest) _ u1 hpre]
  have herr := processEdge_occupied u1 e2 e1.fromVertex hrec2
  simp only [processEdges]
  rw [herr]

/-- Concrete edges for witnesses. -/
def edgeA : TEdge := { fromVertex := 0, toVertex := 1, toInput := 0 }

/-- A second edge into the same slot as `edgeA`. -/
def edgeB : TEdge := { fromVertex := 2, toVertex := 1, toInput := 0 }

/-- An edge whose input index is out of range for its destination. -/
def edgeC : TEdge := { fromVertex := 0, toVertex := 2, toInput := 0 }

/-- Witness for C4 at a concrete input: vertices of arities `[1, 1, 0]`,
`edgeA` then `edgeB` both into input 0 of vertex 1. -/
theorem secondEdgeSameSlot_fails_witness :
    processEdges (initUpstream [1, 1, 0]) ([edgeA] ++ edgeB :: [])
      = (some (EdgeError.multipleUpstream 1 0), [[none], [some 0], []])
  ∧ getSlot [[none], [some 0], []] 1 0 = some (some 0) :=
  secondEdgeSameSlot_fails [1, 1, 0] [edgeA] [] edgeA edgeB
    [[none], [some 0], []] (by simp) rfl rfl (by decide)

theorem initUpstream_length (arities : List Nat) :
    (initUpstream arities).length = arities.length := by
  simp [initUpstream]

theorem initUpstream_arity (arities : List Nat) (v : Nat)
    (hv : v < arities.length) :
    ((initUpstream arities).getD v []).length = arities.getD v 0 := by
  simp [initUpstream, List.getD_eq_getElem?_getD, List.getElem?_eq_getElem hv]

theorem processEdges_shape (es : List TEdge) (u : Upstream) :
    (processEdges u es).2.length = u.length
  ∧ ∀ v, ((processEdges u es).2.getD v []).length = (u.getD v []).length := by
  induction es generalizing u with
  | nil => exact ⟨rfl, fun v => rfl⟩
  | cons e es ih =>
    simp only [processEdges]
    cases hp : processEdge u e with
    | error err => exact ⟨rfl, fun v => rfl⟩
    | ok u2 =>
      obtain ⟨hv, hi, hempty, hu2⟩ := processEdge_ok_inv u e u2 hp
      obtain ⟨ihl, ihv⟩ := ih u2
      constructor
      · rw [ihl, hu2]
        simp
      · intro v
        rw [ihv v, hu2]
        by_cases hvv : e.toVertex = v
        · subst hvv
          rw [getD_set_self _ _ _ hv]
          simp
        · rw [getD_set_ne _ _ _ _ hvv]

/-- C5: when the edge loop has processed a prefix without error, an edge
whose input index is at least its (existing) destination vertex's
declared arity makes the loop throw the nonexistant-input error, leaving
the state as it was — no slot for that input exists and nothing is
connected. -/
theorem invalidInputEdge_fails (arities : List Nat) (pre rest : List TEdge)
    (e : TEdge) (u1 : Upstream)
    (hpre : processEdges (initUpstream arities) pre = (none, u1))
    (hv : e.toVertex < arities.length)
    (hi : arities.getD e.toVertex 0 ≤ e.toInput) :
    processEdges (initUpstream arities) (pre ++ e :: rest)
      = (some (EdgeError.nonexistentInput e.toVertex e.toInput), u1)
  ∧ getSlot u1 e.toVertex e.toInput = none := by
  obtain ⟨hlen, harities⟩ := processEdges_shape pre (initUpstream arities)
  rw [hpre] at hlen harities
  have hlen1 : u1.length = arities.length := by
    rw [hlen, initUpstream_length]
  have harity : (u1.getD e.toVertex []).length = arities.getD e.toVertex 0 := by
    rw [harities e.toVertex, initUpstream_arity arities e.toVertex hv]
  have herr : processEdge u1 e
      = Except.error (EdgeError.nonexistentInput e.toVertex e.toInput) := by
    unfold processEdge
    rw [if_neg (by omega), if_pos (by omega)]
  constructor
  · rw [processEdges_append_ok pre (e :: rest) _ u1 hpre]
    simp only [processEdges]
    rw [herr]
  · unfold getSlot
    rw [List.getElem?_eq_none (by omega)]

/-- Witness for C5 at a concrete input: vertex 2 has arity 0, so an edge
into its input 0 is rejected. -/
theorem invalidInputEdge_fails_witness :
    processEdges (initUpstream [1, 1, 0]) ([] ++ edgeC :: [])
      = (some (EdgeError.nonexistentInput 2 0), [[none], [none], []])
  ∧ getSlot [[none], [none], []] 2 0 = none :=
  invalidInputEdge_fails [1, 1, 0] [] [] edgeC [[none], [none], []]
    (by decide) (by decide) (by decide)

end RadianceGraphUI

namespace RadiancePA

/-- Modelled from the spec: the Model's per-consumer chain registry
(§3 "Chain", §4.3 `addChain`/`removeChain`).  The Model class itself is
not among the provided sources; per the spec it keeps a registry of
active chains and per-chain cached textures.  `chains` holds the
registered chain ids, `cache` holds `(chainId, nodeId, textureId)`
cached results. -/
structure ModelReg where
  chains : List Nat
  cache : List (Nat × Nat × Nat)
deriving DecidableEq, Repr

/-- A Model with no registered chains and no cached textures. -/
def emptyReg : ModelReg := { chains := [], cache := [] }

/-- Modelled from the spec: `addChain(chain)` registers a render
target (§4.3). -/
def addChain (r : ModelReg) (c : Nat) : ModelReg :=
  { r with chains := c :: r.chains }

/-- Modelled from the spec: `removeChain(chain)` unregisters a render
target, and "removing a chain releases every node's cached texture for
that chain" (§4.3). -/
def removeChain (r : ModelReg) (c : Nat) : ModelReg :=
  { chains := r.chains.filter (fun x => x != c),
    cache := r.cache.filter (fun e => e.1 != c) }

/-- Signals emitted by `QQuickPreviewAdapter`. -/
inductive PASignal where
  | modelChanged (m : Option Nat)
  | previewSizeChanged (size : Nat × Nat)
deriving DecidableEq, Repr

/-- The adapter's state together with the Model objects it may point to:
`m_hasPreview`, `m_previewSize`, `m_previewChain` (a chain id; chains
are heap objects, so `chainSize` records the size each chain id was
constructed with and `nextChainId` makes `new Chain(...)` fresh),
`m_model` (a model id or null), the registry state of every model
object, and `m_lastPreviewRender`. -/
structure PAState where
  hasPreview : Bool
  previewSize : Nat × Nat
  previewChainId : Nat
  chainSize : Nat → Nat × Nat
  model : Option Nat
  reg : Nat → ModelReg
  lastPreviewRender : List (Nat × Nat)
  nextChainId : Nat

/-- Apply `f` to the registry of the model object `mid`. -/
def regUpdate (s : PAState) (mid : Nat) (f : ModelReg → ModelReg) : PAState :=
  { s with reg := fun j => if j = mid then f (s.reg j) else s.reg j }

/-- `QQuickPreviewAdapter::QQuickPreviewAdapter(true)`
(QQuickPreviewAdapter.cpp lines 5-14): null model, 300×300 preview
size, and a freshly constructed preview chain (id 0) of that size. -/
def initAdapter : PAState :=
  { hasPreview := true
    previewSize := (300, 300)
    previewChainId := 0
    chainSize := fun _ => (300, 300)
    model := none
    reg := fun _ => emptyReg
    lastPreviewRender := []
    nextChainId := 1 }

/-- `QQuickPreviewAdapter::setModel` (QQuickPreviewAdapter.cpp lines
27-39): on a changed model, remove the preview chain from the old
non-null model, store the new model, add the preview chain to the new
non-null model, and emit `modelChanged`; otherwise do nothing. -/
def setModel (s : PAState) (m : Option Nat) : PAState × List PASignal :=
  if s.model = m then (s, [])
  else
    let s1 :=
      match s.model with
      | some old =>
        if s.hasPreview
        then regUpdate s old (fun r => removeChain r s.previewChainId)
        else s
      | none => s
    let s2 := { s1 with model := m }
    let s3 :=
      match m with
      | some nw =>
        if s2.hasPreview
        then regUpdate s2 nw (fun r => addChain r s2.previewChainId)
        else s2
      | none => s2
    (s3, [PASignal.modelChanged m])

/-- `QQuickPreviewAdapter::setPreviewSize` (QQuickPreviewAdapter.cpp
lines 47-63; `Q_ASSERT(m_hasPreview)` holds at every call site): on a
changed size, under the preview lock store the size, construct a fresh
`Chain` of the new size, swap it into the non-null model's registry in
place of the old preview chain, replace `m_previewChain`, and emit
`previewSizeChanged`; on an unchanged size do nothing. -/
def setPreviewSize (s : PAState) (size : Nat × Nat) : PAState × List PASignal :=
  if size = s.previewSize then (s, [])
  else
    let newChain := s.nextChainId
    let s1 := { s with
      previewSize := size
      chainSize := fun c => if c = newChain then size else s.chainSize c
      nextChainId := s.nextChainId + 1 }
    let s2 :=
      match s1.model with
      | some mid =>
        regUpdate (regUpdate s1 mid (fun r => removeChain r s1.previewChainId))
          mid (fun r => addChain r newChain)
      | none => s1
    let s3 := { s2 with previewChainId := newChain }
    (s3, [PASignal.previewSizeChanged size])

/-- `QQuickPreviewAdapter::~QQuickPreviewAdapter`
(QQuickPreviewAdapter.cpp lines 16-20): remove the preview chain from
the current non-null model.  The result is the registry state of every
model object after destruction. -/
def destructPA (s : PAState) : Nat → ModelReg :=
  match s.model with
  | some mid =>
    if s.hasPreview
    then (regUpdate s mid (fun r => removeChain r s.previewChainId)).reg
    else s.reg
  | none => s.reg

/-- `QMap<int, GLuint>::value(key, 0)`: the stored value, or the default
when the key is absent. -/
def qmapValue (m : List (Nat × Nat)) (k : Nat) (d : Nat) : Nat :=
  match m.lookup k with
  | some v => v
  | none => d

/-- `QQuickPreviewAdapter::previewTexture` (QQuickPreviewAdapter.cpp
lines 90-93): read `m_lastPreviewRender.value(videoNodeId, 0)`; the
state is returned unchanged (the function mutates nothing). -/
def previewTexture (s : PAState) (videoNodeId : Nat) : Nat × PAState :=
  (qmapValue s.lastPreviewRender videoNodeId 0, s)

theorem mem_removeChain (r : ModelReg) (c x : Nat) :
    x ∈ (removeChain r c).chains ↔ x ∈ r.chains ∧ x ≠ c := by
  simp [removeChain]

theorem mem_addChain (r : ModelReg) (c x : Nat) :
    x ∈ (addChain r c).chains ↔ x = c ∨ x ∈ r.chains := by
  simp [addChain]

theorem setModel_eq (s : PAState) (m : Option Nat)
    (h : s.model ≠ m) (hp : s.hasPreview = true) :
    (setModel s m).1.model = m
  ∧ (setModel s m).1.hasPreview = s.hasPreview
  ∧ (setModel s m).1.previewChainId = s.previewChainId
  ∧ (setModel s m).1.nextChainId = s.nextChainId
  ∧ (setModel s m).2 = [PASignal.modelChanged m]
  ∧ ∀ mid, ((setModel s m).1.reg mid).chains
      = (if m = some mid then [s.previewChainId] else [])
        ++ (if s.model = some mid
            then (removeChain (s.reg mid) s.previewChainId).chains
            else (s.reg mid).chains) := by
  obtain ⟨hpv, psz, pc, cs, mdl, rg, lpr, nci⟩ := s
  replace hp : hpv = true := hp
  subst hp
  replace h : mdl ≠ m := h
  cases mdl with
  | none =>
    cases m with
    | none => exact absurd rfl h
    | some nw =>
      refine ⟨?_, ?_, ?_, ?_, ?_, ?_⟩
      · simp [setModel, regUpdate]
      · simp [setModel, regUpdate]
      · simp [setModel, regUpdate]
      · simp [setModel, regUpdate]
      · simp [setModel, regUpdate]
      intro mid
      by_cases hw : nw = mid
      · subst hw
        simp [setModel, regUpdate, addChain]
      · simp [setModel, regUpdate, addChain, hw, Ne.symm hw]
  | some old =>
    cases m with
    | none =>
      refine ⟨?_, ?_, ?_, ?_, ?_, ?_⟩
      · simp [setModel, regUpdate]
      · simp [setModel, regUpdate]
      · simp [setModel, regUpdate]
      · simp [setModel, regUpdate]
      · simp [setModel, regUpdate]
      intro mid
      by_cases ho : old = mid
      · subst ho
        simp [setModel, regUpdate]
      · simp [setModel, regUpdate, ho, Ne.symm ho]
    | some nw =>
      have hne : old ≠ nw := fun hc => h (by rw [hc])
      refine ⟨?_, ?_, ?_, ?_, ?_, ?_⟩
      · simp [setModel, regUpdate, h]
      · simp [setModel, regUpdate, h]
      · simp [setModel, regUpdate, h]
      · simp [setModel, regUpdate, h]
      · simp [setModel, regUpdate, h]
      intro mid
      by_cases hw : nw = mid
      · subst hw
        simp [setModel, regUpdate, addChain, h, hne, Ne.symm hne]
      · by_cases ho : old = mid
        · subst ho
          simp [setModel, regUpdate, addChain, h, hw, Ne.symm hw]
        · simp [setModel, regUpdate, addChain, h, hw, Ne.symm hw, ho,
            Ne.symm ho]

theorem setPreviewSize_eq (s : PAState) (size : Nat × Nat)
    (h : size ≠ s.previewSize) :
    (setPreviewSize s size).1.previewSize = size
  ∧ (setPreviewSize s size).1.hasPreview = s.hasPreview
  ∧ (setPreviewSize s size).1.previewChainId = s.nextChainId
  ∧ (setPreviewSize s size).1.nextChainId = s.nextChainId + 1
  ∧ (setPreviewSize s size).1.model = s.model
  ∧ (setPreviewSize s size).1.chainSize s.nextChainId = size
  ∧ (setPreviewSize s size).2 = [PASignal.previewSizeChanged size]
  ∧ ∀ mid, (setPreviewSize s size).1.reg mid
      = (if s.model = some mid
         then addChain (removeChain (s.reg mid) s.previewChainId) s.nextChainId
         else s.reg mid) := by
  refine ⟨?_, ?_, ?_, ?_, ?_, ?_, ?_, ?_⟩
  · cases hsm : s.model <;> simp [setPreviewSize, if_neg h, regUpdate, hsm]
  · cases hsm : s.model <;> simp [setPreviewSize, if_neg h, regUpdate, hsm]
  · cases hsm : s.model <;> simp [setPreviewSize, if_neg h, regUpdate, hsm]
  · cases hsm : s.model <;> simp [setPreviewSize, if_neg h, regUpdate, hsm]
  · cases hsm : s.model <;> simp [setPreviewSize, if_neg h, regUpdate, hsm]
  · cases hsm : s.model <;> simp [setPreviewSize, if_neg h, regUpdate, hsm]
  · cases hsm : s.model <;> simp [setPreviewSize, if_neg h, regUpdate, hsm]
  · intro mid
    cases hsm : s.model with
    | none => simp [setPreviewSize, if_neg h, regUpdate, hsm]
    | some mid0 =>
      by_cases hm : mid0 = mid
      · subst hm
        simp [setPreviewSize, if_neg h, regUpdate, hsm]
      · simp [setPreviewSize, if_neg h, regUpdate, hsm, hm, Ne.symm hm]

/-- C3: `setPreviewSize` with an unchanged size changes no state and
emits no signal; with a changed size it stores the new size, removes the
old preview chain from the (non-null) model — discarding with it every
cached texture for that chain — registers a freshly constructed chain of
the new size, replaces the stored preview chain, and emits
`previewSizeChanged` (the swap happens inside one `m_previewLock`
critical section, outside this sequential model). -/
theorem setPreviewSize_spec (s : PAState) (size : Nat × Nat) (mid : Nat) :
    (size = s.previewSize → setPreviewSize s size = (s, []))
  ∧ (size ≠ s.previewSize → s.model = some mid →
      s.previewChainId < s.nextChainId →
      ((setPreviewSize s size).1.previewSize = size
       ∧ (setPreviewSize s size).1.previewChainId ≠ s.previewChainId
       ∧ (setPreviewSize s size).1.chainSize
           (setPreviewSize s size).1.previewChainId = size
       ∧ s.previewChainId ∉ ((setPreviewSize s size).1.reg mid).chains
       ∧ (setPreviewSize s size).1.previewChainId
           ∈ ((setPreviewSize s size).1.reg mid).chains
       ∧ (∀ e ∈ ((setPreviewSize s size).1.reg mid).cache,
            e.1 ≠ s.previewChainId)
       ∧ (setPreviewSize s size).2 = [PASignal.previewSizeChanged size])) := by
  constructor
  · intro he
    simp [setPreviewSize, he]
  · intro hne hm hfresh
    obtain ⟨e1, e2, e3, e4, e5, e6, e7, e8⟩ := setPreviewSize_eq s size hne
    have hreg : (setPreviewSize s size).1.reg mid
        = addChain (removeChain (s.reg mid) s.previewChainId) s.nextChainId := by
      rw [e8 mid, hm, if_pos rfl]
    refine ⟨e1, ?_, ?_, ?_, ?_, ?_, e7⟩
    · rw [e3]
      omega
    · rw [e3, e6]
    · rw [hreg, mem_addChain, mem_removeChain]
      intro hc
      rcases hc with hc | hc
      · omega
      · exact hc.2 rfl
    · rw [e3, hreg, mem_addChain]
      exact Or.inl rfl
    · intro e he
      rw [hreg] at he
      have : e ∈ (s.reg mid).cache.filter
          (fun x => x.1 != s.previewChainId) := he
      rw [List.mem_filter] at this
      simpa using this.2

/-- The graph-editing operations the claim quantifies over. -/
inductive POp where
  | setModelOp (m : Option Nat)
  | setPreviewSizeOp (size : Nat × Nat)
deriving DecidableEq, Repr

/-- Apply one adapter operation to the state. -/
def applyOp (s : PAState) (op : POp) : PAState :=
  match op with
  | POp.setModelOp m => (setModel s m).1
  | POp.setPreviewSizeOp size => (setPreviewSize s size).1

/-- Apply a sequence of adapter operations. -/
def runOps (s : PAState) (ops : List POp) : PAState :=
  ops.foldl applyOp s

/-- The registration invariant: the adapter has a preview, the preview
chain is registered with a model exactly when that model is the
adapter's current non-null model, and every registered chain id (hence
also the preview chain's) predates the allocation counter. -/
def RegInv (s : PAState) : Prop :=
  s.hasPreview = true
  ∧ (∀ mid, s.previewChainId ∈ (s.reg mid).chains ↔ s.model = some mid)
  ∧ (∀ mid c, c ∈ (s.reg mid).chains → c < s.nextChainId)
  ∧ s.previewChainId < s.nextChainId

theorem regInv_init : RegInv initAdapter := by
  refine ⟨rfl, ?_, ?_, ?_⟩ <;> simp [initAdapter, emptyReg]

theorem regInv_setModel (s : PAState) (m : Option Nat) (hinv : RegInv s) :
    RegInv (setModel s m).1 := by
  obtain ⟨hp, hiff, hbound, hfresh⟩ := hinv
  by_cases h : s.model = m
  · have hid : (setModel s m).1 = s := by
      simp [setModel, h]
    rw [hid]
    exact ⟨hp, hiff, hbound, hfresh⟩
  · obtain ⟨e1, e2, e3, e4, e5, e6⟩ := setModel_eq s m h hp
    refine ⟨by rw [e2, hp], ?_, ?_, by rw [e3, e4]; exact hfresh⟩
    · intro mid
      rw [e3, e1]
      have hchains := e6 mid
      by_cases hm2 : m = some mid
      · rw [hchains, if_pos hm2]
        simp [hm2]
      · rw [hchains, if_neg hm2]
        simp only [List.nil_append]
        refine iff_of_false ?_ hm2
        by_cases hsm2 : s.model = some mid
        · rw [if_pos hsm2, mem_removeChain]
          intro hc
          exact hc.2 rfl
        · rw [if_neg hsm2]
          intro hc
          exact hsm2 ((hiff mid).1 hc)
    · intro mid c hc
      rw [e4]
      rw [e6 mid] at hc
      rw [List.mem_append] at hc
      rcases hc with hc | hc
      · by_cases hm2 : m = some mid
        · rw [if_pos hm2] at hc
          simp only [List.mem_singleton] at hc
          omega
        · rw [if_neg hm2] at hc
          simp at hc
      · by_cases hsm2 : s.model = some mid
        · rw [if_pos hsm2, mem_removeChain] at hc
          exact hbound mid c hc.1
        · rw [if_neg hsm2] at hc
          exact hbound mid c hc

theorem regInv_setPreviewSize (s : PAState) (size : Nat × Nat)
    (hinv : RegInv s) :
    RegInv (setPreviewSize s size).1 := by
  obtain ⟨hp, hiff, hbound, hfresh⟩ := hinv
  by_cases h : size = s.previewSize
  · have hid : (setPreviewSize s size).1 = s := by
      simp [setPreviewSize, h]
    rw [hid]
    exact ⟨hp, hiff, hbound, hfresh⟩
  · obtain ⟨e1, e2, e3, e4, e5, e6, e7, e8⟩ := setPreviewSize_eq s size h
    refine ⟨by rw [e2, hp], ?_, ?_, by rw [e3, e4]; omega⟩
    · intro mid
      rw [e3, e5, e8 mid]
      by_cases hsm : s.model = some mid
      · rw [if_pos hsm, mem_addChain]
        exact iff_of_true (Or.inl rfl) hsm
      · rw [if_neg hsm]
        refine iff_of_false (fun hc => ?_) hsm
        exact absurd (hbound mid _ hc) (by omega)
    · intro mid c hc
      rw [e4]
      rw [e8 mid] at hc
      by_cases hsm : s.model = some mid
      · rw [if_pos hsm, mem_addChain, mem_removeChain] at hc
        rcases hc with hc | hc
        · omega
        · have := hbound mid c hc.1
          omega
      · rw [if_neg hsm] at hc
        have := hbound mid c hc
        omega

theorem regInv_runOps (ops : List POp) (s : PAState) (hinv : RegInv s) :
    RegInv (runOps s ops) := by
  induction ops generalizing s with
  | nil => exact hinv
  | cons op ops ih =>
    cases op with
    | setModelOp m => exact ih _ (regInv_setModel s m hinv)
    | setPreviewSizeOp size => exact ih _ (regInv_setPreviewSize s size hinv)

theorem destructPA_unregisters (s : PAState) (hinv : RegInv s) (mid : Nat) :
    s.previewChainId ∉ (destructPA s mid).chains := by
  obtain ⟨hp, hiff, hbound, hfresh⟩ := hinv
  cases hsm : s.model with
  | none =>
    simp only [destructPA, hsm]
    intro hc
    have := (hiff mid).1 hc
    rw [hsm] at this
    exact Option.noConfusion this
  | some mid0 =>
    have hd : destructPA s mid
        = if mid = mid0
          then removeChain (s.reg mid) s.previewChainId
          else s.reg mid := by
      simp [destructPA, hsm, hp, regUpdate]
    rw [hd]
    by_cases hm : mid = mid0
    · rw [if_pos hm, mem_removeChain]
      intro hc
      exact hc.2 rfl
    · rw [if_neg hm]
      intro hc
      have := (hiff mid).1 hc
      rw [hsm] at this
      exact hm (Option.some.inj this).symm

/-- C6: starting from an adapter constructed with a preview, the
invariant that the preview chain is registered with a model exactly when
that model is the adapter's current non-null model holds after any
sequence of `setModel`/`setPreviewSize` operations; `setModel` with the
current model changes nothing and emits no signal; destruction leaves
the preview chain registered with no model; and `setModel` to a
different model re-establishes the registration at the new model. -/
theorem previewChain_registration_spec (ops : List POp) (s : PAState)
    (m : Option Nat) :
    RegInv (runOps initAdapter ops)
  ∧ setModel s s.model = (s, [])
  ∧ (RegInv s → ∀ mid, s.previewChainId ∉ (destructPA s mid).chains)
  ∧ (RegInv s → s.model ≠ m →
      ((setModel s m).1.model = m
       ∧ ∀ mid, ((setModel s m).1.previewChainId
            ∈ ((setModel s m).1.reg mid).chains ↔ m = some mid))) := by
  refine ⟨regInv_runOps ops initAdapter regInv_init, by simp [setModel],
    fun hinv mid => destructPA_unregisters s hinv mid, ?_⟩
  intro hinv hne
  obtain ⟨e1, _, _, _, _, _⟩ := setModel_eq s m hne hinv.1
  obtain ⟨_, hiff2, _, _⟩ := regInv_setModel s m hinv
  exact ⟨e1, fun mid => (hiff2 mid).trans (by rw [e1])⟩

/-- C7: `previewTexture` returns exactly the texture stored for the
requested node id in the mapping left by the most recent preview render
pass, and modifies no adapter state. -/
theorem previewTexture_spec (s : PAState) (nid t : Nat)
    (h : s.lastPreviewRender.lookup nid = some t) :
    (previewTexture s nid).1 = t ∧ (previewTexture s nid).2 = s := by
  refine ⟨?_, rfl⟩
  simp [previewTexture, qmapValue, h]

/-- A concrete adapter state for witnesses: one render result stored. -/
def sampleAdapter : PAState :=
  { initAdapter with lastPreviewRender := [(5, 42)] }

/-- Witness for C7 at a concrete input. -/
theorem previewTexture_spec_witness :
    (previewTexture sampleAdapter 5).1 = 42
  ∧ (previewTexture sampleAdapter 5).2 = sampleAdapter :=
  previewTexture_spec sampleAdapter 5 42 rfl

/-- C9: for a node id absent from the last render's mapping — in
particular before any render has happened — `previewTexture` returns 0,
the null texture id. -/
theorem previewTexture_default (s : PAState) (nid : Nat)
    (h : s.lastPreviewRender.lookup nid = none) :
    (previewTexture s nid).1 = 0 := by
  simp [previewTexture, qmapValue, h]

/-- Witness for C9 at a concrete input: the freshly constructed adapter,
before any render. -/
theorem previewTexture_default_witness :
    (previewTexture initAdapter 7).1 = 0 :=
  previewTexture_default initAdapter 7 rfl

end RadiancePA

namespace RadianceSnap

/-- Modelled from the spec: the Model's canonical graph data — vertices
as `(nodeId, parameterValue)` pairs and edges as
`(fromId, toId, toInputIndex)` triples (§3 "Model", "VideoNode",
"Edge"); the Model class is not among the provided sources. -/
structure GraphData where
  vertices : List (Nat × Nat)
  edges : List (Nat × Nat × Nat)
deriving DecidableEq, Repr

/-- Modelled from the spec: `createCopyForRendering` — called by
`QQuickPreviewAdapter::onBeforeSynchronizing`
(QQuickPreviewAdapter.cpp line 85) — produces "an immutable,
independently-owned copy of the node/edge topology and current
parameter values" (§3 "Render Snapshot"). -/
def createCopyForRendering (g : GraphData) : GraphData :=
  { vertices := g.vertices, edges := g.edges }

/-- Modelled from the spec: the Model's mutation API (§4.3). -/
inductive ModelMut where
  | addVertexMut (nid param : Nat)
  | removeVertexMut (nid : Nat)
  | addEdgeMut (f t i : Nat)
  | removeEdgeMut (f t i : Nat)
  | setParamMut (nid param : Nat)
deriving DecidableEq, Repr

/-- Modelled from the spec: one mutation applied to the live graph
(§4.3 — `removeNode` also removes all edges touching the node;
structural validity checks are irrelevant to snapshot isolation and
omitted). -/
def applyMut (g : GraphData) (m : ModelMut) : GraphData :=
  match m with
  | ModelMut.addVertexMut nid param =>
    { g with vertices := g.vertices ++ [(nid, param)] }
  | ModelMut.removeVertexMut nid =>
    { vertices := g.vertices.filter (fun v => v.1 != nid)
      edges := g.edges.filter (fun e => e.1 != nid && e.2.1 != nid) }
  | ModelMut.addEdgeMut f t i =>
    { g with edges := g.edges ++ [(f, t, i)] }
  | ModelMut.removeEdgeMut f t i =>
    { g with edges := g.edges.filter (fun e => e != (f, t, i)) }
  | ModelMut.setParamMut nid param =>
    { g with vertices :=
        g.vertices.map (fun v => if v.1 = nid then (nid, param) else v) }

/-- The upstream node ids feeding `nid`, read off the snapshot's edge
list. -/
def upstreamIds (g : GraphData) (nid : Nat) : List Nat :=
  (g.edges.filter (fun e => e.2.1 == nid)).map (fun e => e.1)

/-- The parameter value of node `nid`, or 0. -/
def paramOf (g : GraphData) (nid : Nat) : Nat :=
  match g.vertices.lookup nid with
  | some p => p
  | none => 0

/-- Modelled from the spec: the evaluator (§4.4) — each node's texture
is a deterministic function of its chain, its parameters and its
upstream nodes' textures; the fuel bounds recursion over the DAG. -/
def evalNode (g : GraphData) (chain : Nat) : Nat → Nat → Nat
  | 0, _ => 0
  | fuel + 1, nid =>
    (upstreamIds g nid).foldl
      (fun a uid => a * 31 + evalNode g chain fuel uid)
      (chain * 17 + paramOf g nid + 1)

/-- Modelled from the spec: evaluating a snapshot for one chain yields
the full `{nodeId -> texture}` mapping (§4.4). -/
def renderSnapshot (snap : GraphData) (chain : Nat) : List (Nat × Nat) :=
  snap.vertices.map
    (fun v => (v.1, evalNode snap chain snap.vertices.length v.1))

/-- The live model together with the snapshot held by an in-flight
preview render. -/
structure RenderWorld where
  model : GraphData
  inflight : GraphData
deriving DecidableEq, Repr

/-- The first half of `QQuickPreviewAdapter::onBeforeSynchronizing`
(QQuickPreviewAdapter.cpp line 85): take the rendering copy of the live
model. -/
def beginPreviewRender (g : GraphData) : RenderWorld :=
  { model := g, inflight := createCopyForRendering g }

/-- A model mutation issued while the render is in flight: it touches
only the live model, never the copy. -/
def stepWorld (w : RenderWorld) (m : ModelMut) : RenderWorld :=
  { w with model := applyMut w.model m }

/-- The second half of `QQuickPreviewAdapter::onBeforeSynchronizing`
(QQuickPreviewAdapter.cpp line 86): evaluate the held copy for the
preview chain. -/
def finishPreviewRender (w : RenderWorld) (chain : Nat) : List (Nat × Nat) :=
  renderSnapshot w.inflight chain

theorem stepWorld_inflight (w : RenderWorld) (muts : List ModelMut) :
    (muts.foldl stepWorld w).inflight = w.inflight := by
  induction muts generalizing w with
  | nil => rfl
  | cons m muts ih => exact ih (stepWorld w m)

/-- C1: the preview render evaluates only the copy returned by
`createCopyForRendering`, so its `{nodeId -> texture}` result after any
sequence of model mutations issued between copy creation and render
completion equals the result with no mutations at all. -/
theorem snapshotRender_isolated (g : GraphData) (muts : List ModelMut)
    (chain : Nat) :
    finishPreviewRender (muts.foldl stepWorld (beginPreviewRender g)) chain
      = finishPreviewRender (beginPreviewRender g) chain
  ∧ finishPreviewRender (beginPreviewRender g) chain
      = renderSnapshot (createCopyForRendering g) chain := by
  refine ⟨?_, rfl⟩
  unfold finishPreviewRender
  rw [stepWorld_inflight]

end RadianceSnap
